import Mathlib

/-!
Verification of the remote-executor worker pool (Go) against its
natural-language specification, via a shallow embedding in Lean 4.

The embedding covers:
* `utils.Append22` (host-port formatting),
* the synchronous single-job path of `api.RunJob` together with the
  synchronous worker body (src/api/api.go),
* the bulk worker-pool path (`CreatePool`, `ScheduleJobs`, `worker`,
  `WaitAndReturnResults`, `StreamResults`) as a small-step scheduler
  semantics over an explicit pool state.

Go byte slices are modelled as `List UInt8`, the Go `error` type as
`Option String` (`none` = nil error), and channels as explicit lists with
scheduler-chosen interleavings.
-/

namespace RemoteExecutor

/-- Byte slices (`[]byte` in Go). -/
abbrev Bytes := List UInt8

/-- The executor collaborator: `execute(host) -> (output bytes, error)`.
A `none` second component is Go's nil error. -/
abbrev Executor := String → Bytes × Option String

/-- `Result` from api.go: the outcome of running the command against one
host: `{Host string; Output []byte; Err error}`. -/
structure Result where
  Host : String
  Output : Bytes
  Err : Option String
deriving DecidableEq, Repr

/-- The Go zero value `Result\x7b\x7d`: empty host, nil output, nil error. -/
def emptyResult : Result := { Host := "", Output := [], Err := none }

/-! ## utils.Append22 (src/utils/utils.go lines 76-92)

Go source:
```
parts := strings.Split(host, ":")
res := host
if len(parts) == 1 && parts[0] != "" \x7b
    res = fmt.Sprintf("%s:%d", host, 22)
\x7d else if len(parts) > 1 \x7b
    last := parts[len(parts)-1]
    switch \x7b
    case last == "":   res = fmt.Sprintf("%s%d", host, 22)
    case last != "22": res = fmt.Sprintf("%s:%d", host, 22)
    default:
    \x7d
\x7d
return res
```
`goSplit` below is Go `strings.Split` for a single-character separator,
computed structurally on the character list underlying the string: it
returns a nonempty list of separator-free segments, `[""]` on the empty
string, exactly as Go does. -/

def splitChar (c : Char) : List Char → List (List Char)
  | [] => [[]]
  | x :: xs =>
    if x = c then [] :: splitChar c xs
    else
      match splitChar c xs with
      | [] => [[x]]
      | seg :: segs => (x :: seg) :: segs

/-- Go `strings.Split(s, string(c))` for a one-character separator. -/
def goSplit (s : String) (c : Char) : List String :=
  (splitChar c s.data).map String.mk

def Append22 (host : String) : String :=
  let parts := goSplit host ':'
  if parts.length = 1 ∧ parts.headD "" ≠ "" then
    host ++ ":22"
  else if 1 < parts.length then
    let last := parts.getLastD ""
    if last = "" then host ++ "22"
    else if last ≠ "22" then host ++ ":22"
    else host
  else host

/-- C10: for every input containing at least one colon (so that the split
has more than one segment) whose final colon-separated segment is neither
empty nor "22", `Append22` appends ":22" to the whole input; the existing
port text is kept as a prefix, never replaced. -/
theorem append22_appends_to_other_port (host : String)
    (h1 : 1 < (goSplit host ':').length)
    (h2 : (goSplit host ':').getLastD "" ≠ "")
    (h3 : (goSplit host ':').getLastD "" ≠ "22") :
    Append22 host = host ++ ":22" := by
  simp only [Append22]
  split_ifs with hA
  · rfl
  · rfl

/-- Witness for C10 at the spec's own example input "host:8080". -/
theorem append22_appends_to_other_port_witness :
    (1 < (goSplit "host:8080" ':').length ∧
      (goSplit "host:8080" ':').getLastD "" ≠ "" ∧
      (goSplit "host:8080" ':').getLastD "" ≠ "22") ∧
    Append22 "host:8080" = "host:8080" ++ ":22" :=
  ⟨⟨by decide, by decide, by decide⟩,
    append22_appends_to_other_port "host:8080" (by decide) (by decide) (by decide)⟩

/-! ## The synchronous single-job path (src/api/api.go)

`RunJob(ctx, host)` builds a `JobResult\x7bhost, res, done\x7d` and runs two Go
`select` statements:
```
select \x7b
case wp.jobs <- JobResult\x7bhost, res, done\x7d:
case <-ctx.Done(): return Result\x7b\x7d, nil
\x7d
select \x7b
case <-done: return *res, nil
case <-ctx.Done(): return Result\x7b\x7d, nil
\x7d
```
The serving worker (lines 75-85) writes the three fields of the result
slot and then closes `done`:
```
for job := range wp.jobs \x7b
  output, err := wp.executor(job.host)
  job.result.Host = job.host
  job.result.Output = output
  job.result.Err = err
  close(job.done)
\x7d
```
The nondeterminism of each `select` (which ready case fires) is resolved
by an explicit scheduler choice; `validFirst`/`validSecond` say which
choices the Go runtime can actually make, given whether the context is
cancelled and whether a worker is ready to receive from the unbuffered
`jobs` channel. -/

/-- Scheduler resolution of the first select in `RunJob`: the job was
handed to the jobs channel, or the context-done case fired. -/
inductive FirstSelect
  | enqueuedJob
  | ctxDone
deriving DecidableEq, Repr

/-- Scheduler resolution of the second select in `RunJob`: the worker
closed `done` first, or the context-done case fired first. -/
inductive SecondSelect
  | jobDone
  | ctxDone
deriving DecidableEq, Repr

/-- What one `RunJob` call produced: the returned `(Result, error)` pair,
whether the `JobResult` was ever placed on the jobs channel, and whether
the Executor was (eventually) invoked for the host. -/
structure RunJobOutcome where
  res : Result
  err : Option String
  enqueued : Bool
  executorInvoked : Bool
deriving DecidableEq, Repr

/-- Shallow embedding of `RunJob` (api.go lines 89-105) together with the
serving worker (lines 75-85), indexed by the scheduler's resolution of the
two selects. In the `ctxDone` cases the Go code returns `Result\x7b\x7d, nil`.
When the item was enqueued, some worker receives it, invokes the executor,
writes the slot and closes `done`, whether or not the caller is still
waiting. -/
def RunJob (exec : Executor) (host : String) (fs : FirstSelect) (ss : SecondSelect) :
    RunJobOutcome :=
  match fs with
  | .ctxDone =>
      { res := emptyResult, err := none, enqueued := false, executorInvoked := false }
  | .enqueuedJob =>
      match exec host with
      | (output, e) =>
        match ss with
        | .jobDone =>
            { res := { Host := host, Output := output, Err := e },
              err := none, enqueued := true, executorInvoked := true }
        | .ctxDone =>
            { res := emptyResult, err := none, enqueued := true, executorInvoked := true }

/-- Which resolutions of the first select the Go runtime may choose: the
enqueue case needs a worker ready to receive from the unbuffered `jobs`
channel; the context case needs the context to be cancelled. When both
hold, Go picks one of the ready cases uniformly at random, so both
resolutions are possible. -/
def validFirst (ctxCancelled workerReady : Bool) : FirstSelect → Bool
  | .enqueuedJob => workerReady
  | .ctxDone => ctxCancelled

/-- Which resolutions of the second select the Go runtime may choose:
`done` is eventually closed by the serving worker, so `jobDone` is always
possible; the context case needs the context to be cancelled. -/
def validSecond (ctxCancelled : Bool) : SecondSelect → Bool
  | .jobDone => true
  | .ctxDone => ctxCancelled

/-- A concrete executor used for closed evaluation: every host yields
empty output and nil error. -/
def execConst : Executor := fun _ => ([], none)

/-- One shared-memory event of the synchronous worker body serving one
`JobResult` (api.go lines 76-81): a write to one field of the caller's
result slot carrying the written value, or the close of the job's `done`
channel (the completion signal). -/
inductive SyncEvent
  | writeHost (v : String)
  | writeOutput (v : Bytes)
  | writeErr (v : Option String)
  | signalDone
deriving DecidableEq, Repr

def isSignalDone : SyncEvent → Bool
  | .signalDone => true
  | _ => false

/-- The exact event sequence the synchronous worker body performs for one
job, transcribed from api.go lines 77-81: run the executor, write the
`Host`, `Output` and `Err` fields of the result slot in that order, then
`close(job.done)`. -/
def serveSyncJob (exec : Executor) (host : String) : List SyncEvent :=
  match exec host with
  | (output, e) =>
    [.writeHost host, .writeOutput output, .writeErr e, .signalDone]

/-- C6: in the event sequence of a worker serving one synchronous
WorkItem, the completion signal is raised exactly once (in particular at
most once), and the trace splits as a signal-free prefix containing the
writes of all three result-slot fields — with their final values —
followed by the single signal. -/
theorem worker_writes_slot_before_signal (exec : Executor) (host : String) :
    (serveSyncJob exec host).countP isSignalDone = 1 ∧
    ∃ pre, serveSyncJob exec host = pre ++ [SyncEvent.signalDone] ∧
      pre.countP isSignalDone = 0 ∧
      SyncEvent.writeHost host ∈ pre ∧
      SyncEvent.writeOutput (exec host).1 ∈ pre ∧
      SyncEvent.writeErr (exec host).2 ∈ pre := by
  rcases hE : exec host with ⟨o, e⟩
  refine ⟨?_,
    [SyncEvent.writeHost host, SyncEvent.writeOutput o, SyncEvent.writeErr e],
    ?_, ?_, ?_, ?_, ?_⟩ <;>
  simp [serveSyncJob, hE, isSignalDone, List.countP_cons]

/-- C2 (code bug): when the context is cancelled before the job completes,
`RunJob` returns `(Result\x7b\x7d, nil)` — a nil method-level error, the same
signal as success, contradicting the function's own doc comment ("Return
an error if the context is cancelled before the job finishes"). At host
`""` with an executor producing empty output, the cancelled return is
bit-for-bit identical to a successful return, so cancellation is not
distinguishable from success. -/
theorem runJob_cancellation_indistinguishable :
    (RunJob execConst "h" .ctxDone .ctxDone).err = none ∧
    (RunJob execConst "h" .enqueuedJob .ctxDone).err = none ∧
    (RunJob execConst "" .ctxDone .ctxDone).res =
      (RunJob execConst "" .enqueuedJob .jobDone).res ∧
    (RunJob execConst "" .ctxDone .ctxDone).err =
      (RunJob execConst "" .enqueuedJob .jobDone).err := by
  refine ⟨rfl, rfl, rfl, rfl⟩

/-- C3: when the executor returns `(o, nil)` for a host and the context is
never cancelled (both selects resolve to their non-context cases), `RunJob`
returns `Outcome\x7bhost, o, nil\x7d` with a nil method-level error; moreover for
every executor, any executor failure is carried inside `Outcome.Err` while
the method-level error stays nil. -/
theorem runJob_success (exec : Executor) (host : String) (o : Bytes)
    (hsucc : exec host = (o, none)) :
    RunJob exec host .enqueuedJob .jobDone =
      { res := { Host := host, Output := o, Err := none },
        err := none, enqueued := true, executorInvoked := true } ∧
    ∀ exec2 : Executor, ∀ host2 : String,
      (RunJob exec2 host2 .enqueuedJob .jobDone).res.Err = (exec2 host2).2 ∧
      (RunJob exec2 host2 .enqueuedJob .jobDone).err = none := by
  constructor
  · simp only [RunJob, hsucc]
  · intro exec2 host2
    rcases hE : exec2 host2 with ⟨o2, e2⟩
    simp [RunJob, hE]

/-- Witness for C3 at `execConst` and host "h". -/
theorem runJob_success_witness :
    execConst "h" = ([], none) ∧
    (RunJob execConst "h" .enqueuedJob .jobDone =
      { res := { Host := "h", Output := [], Err := none },
        err := none, enqueued := true, executorInvoked := true } ∧
    ∀ exec2 : Executor, ∀ host2 : String,
      (RunJob exec2 host2 .enqueuedJob .jobDone).res.Err = (exec2 host2).2 ∧
      (RunJob exec2 host2 .enqueuedJob .jobDone).err = none) :=
  ⟨rfl, runJob_success execConst "h" [] rfl⟩

/-- C7 counterexample: with the cancellation token already triggered at
call time and a worker parked on the unbuffered jobs channel, both cases
of the first select are ready, and Go may hand the item to the worker.
That scheduler resolution is valid, yet it enqueues the WorkItem and the
Executor is invoked for the host — refuting "the WorkItem is never
enqueued and the Executor is never invoked". -/
theorem runJob_cancelled_may_still_enqueue :
    validFirst true true .enqueuedJob = true ∧
    validSecond true .ctxDone = true ∧
    (RunJob execConst "h" .enqueuedJob .ctxDone).enqueued = true ∧
    (RunJob execConst "h" .enqueuedJob .ctxDone).executorInvoked = true :=
  ⟨rfl, rfl, rfl, rfl⟩

/-- C7 as amended: if the cancellation token is already triggered at call
time and no worker is ready to accept the item, every scheduler resolution
the Go runtime can choose takes the context case of the first select:
`RunJob` returns `(Result\x7b\x7d, nil)` at once, the WorkItem is never enqueued
and the Executor is never invoked for that host. (If a worker is ready,
the select may instead enqueue the item, and the Executor then runs even
though the caller returns cancelled.) -/
theorem runJob_cancelled_no_ready_worker (exec : Executor) (host : String)
    (fs : FirstSelect) (ss : SecondSelect)
    (hfs : validFirst true false fs = true) :
    RunJob exec host fs ss =
      { res := emptyResult, err := none, enqueued := false, executorInvoked := false } := by
  cases fs with
  | enqueuedJob => exact absurd hfs (by simp [validFirst])
  | ctxDone => rfl

/-- Witness for the amended C7 at `execConst`, host "h", with the context
case of the first select. -/
theorem runJob_cancelled_no_ready_worker_witness :
    validFirst true false .ctxDone = true ∧
    RunJob execConst "h" .ctxDone .ctxDone =
      { res := emptyResult, err := none, enqueued := false, executorInvoked := false } :=
  ⟨rfl, runJob_cancelled_no_ready_worker execConst "h" .ctxDone .ctxDone rfl⟩

/-! ## The bulk path (src/unnamed/part_004)

`CreatePool(poolSize, queueLength, cmd, config)` allocates the pool record
with both channels at capacity `queueLength` and performs no validation;
`ScheduleWorkers` spawns `numWorkers` workers; `ScheduleJobs(hosts)`
pushes each host in order and closes the jobs channel; each worker loops
`for host := range wp.jobs`, calls the executor, and sends
`Result\x7bhost, output, err\x7d` to the results channel; the drain modes
consume the results channel until it is closed.

The concurrent execution is embedded as a small-step system over an
explicit `PoolState`; the scheduler's interleaving choices form a list of
`Action`s. A `take` hands the head of the (FIFO) job queue to an idle
worker — possible only while fewer than `workerCount` hosts are in
flight; a `finish h` lets a worker that is busy on an occurrence of `h`
emit `Result\x7bh, output, err\x7d` to the results channel. -/

/-- The static configuration part of the Go `WorkerPool` struct
(part_004 lines 11-19): worker count, the two channel capacities, the
command and the ssh client configuration. -/
structure WorkerPool (Cfg : Type) where
  numWorkers : Int
  jobsCap : Int
  resultsCap : Int
  cmd : String
  sshConfig : Cfg
deriving DecidableEq, Repr

/-- `CreatePool` (part_004 lines 30-40): builds the record directly —
there is no validation and no failure path in the source. -/
def CreatePool {Cfg : Type} (poolSize queueLength : Int) (cmd : String) (config : Cfg) :
    WorkerPool Cfg :=
  { numWorkers := poolSize, jobsCap := queueLength, resultsCap := queueLength,
    cmd := cmd, sshConfig := config }

/-- How many workers `ScheduleWorkers` spawns: the loop
`for i := 0; i < wp.numWorkers; i++` runs `numWorkers` times, and zero
times when the count is non-positive. -/
def scheduleWorkersCount {Cfg : Type} (wp : WorkerPool Cfg) : Nat :=
  wp.numWorkers.toNat

/-- Pool creation as the specification describes it, for comparison with
the source's `CreatePool`: per the spec, creation "fails only on invalid
configuration (e.g., non-positive worker count) — signals a configuration
error, does not start any workers". -/
def CreatePoolSpecified {Cfg : Type} (poolSize queueLength : Int) (cmd : String)
    (config : Cfg) : Except String (WorkerPool Cfg) :=
  if poolSize ≤ 0 then
    Except.error "invalid configuration: non-positive worker count"
  else
    Except.ok (CreatePool poolSize queueLength cmd config)

/-- C5 counterexample: at worker count -1 the source's `CreatePool`
returns an ordinary pool carrying the invalid count — its type has no
error channel and no configuration error is signalled — while the
specified behaviour is an error. -/
theorem createPool_accepts_invalid_count :
    CreatePool (-1 : Int) 1 "cmd" () =
      { numWorkers := -1, jobsCap := 1, resultsCap := 1, cmd := "cmd", sshConfig := () } ∧
    CreatePoolSpecified (-1 : Int) 1 "cmd" () =
      Except.error "invalid configuration: non-positive worker count" :=
  ⟨rfl, rfl⟩

/-- C5 as amended: `CreatePool` never fails — for every configuration,
including a non-positive worker count, it returns the Pool record built
from exactly the given configuration and starts no workers; for a
non-positive count the subsequent `ScheduleWorkers` spawns zero workers. -/
theorem createPool_never_fails {Cfg : Type} (config : Cfg)
    (poolSize queueLength : Int) (cmd : String) (hnp : poolSize ≤ 0) :
    CreatePool poolSize queueLength cmd config =
      { numWorkers := poolSize, jobsCap := queueLength, resultsCap := queueLength,
        cmd := cmd, sshConfig := config } ∧
    scheduleWorkersCount (CreatePool poolSize queueLength cmd config) = 0 :=
  ⟨rfl, by simp [scheduleWorkersCount, CreatePool, Int.toNat_of_nonpos hnp]⟩

/-- Witness for the amended C5 at worker count -1. -/
theorem createPool_never_fails_witness :
    (-1 : Int) ≤ 0 ∧
    (CreatePool (-1 : Int) 2 "cmd" () =
      { numWorkers := -1, jobsCap := 2, resultsCap := 2, cmd := "cmd", sshConfig := () } ∧
    scheduleWorkersCount (CreatePool (-1 : Int) 2 "cmd" ()) = 0) :=
  ⟨by decide, createPool_never_fails () (-1) 2 "cmd" (by decide)⟩

/-- `Result\x7bhost, output, err\x7d` as emitted by a bulk worker
(part_004 lines 70-77) after invoking the executor on `host`. -/
def mkResult (exec : Executor) (host : String) : Result :=
  { Host := host, Output := (exec host).1, Err := (exec host).2 }

/-- The dynamic state of a bulk run: hosts still in the job queue (in
submission order), hosts currently held by busy workers, and the results
emitted to the result queue so far (in emission order). -/
structure PoolState where
  pending : List String
  inFlight : List String
  emitted : List Result
deriving DecidableEq, Repr

/-- One scheduler choice: an idle worker receives the next job from the
queue, or a worker busy on (an occurrence of) `host` finishes and emits
its Result. -/
inductive Action
  | take
  | finish (host : String)
deriving DecidableEq, Repr

/-- One step of the bulk system with `wc` workers: `take` dequeues the
head of the job queue into a free worker (only if fewer than `wc` jobs
are in flight); `finish h` completes one in-flight occurrence of `h`,
appending `Result\x7bh, output, err\x7d` to the result queue. Choices that are
not enabled leave the state unchanged. -/
def step (wc : Nat) (exec : Executor) (s : PoolState) : Action → PoolState
  | .take =>
    match s.pending with
    | [] => s
    | h :: rest =>
      if s.inFlight.length < wc then
        { pending := rest, inFlight := s.inFlight ++ [h], emitted := s.emitted }
      else s
  | .finish h =>
    if h ∈ s.inFlight then
      { pending := s.pending, inFlight := s.inFlight.erase h,
        emitted := s.emitted ++ [mkResult exec h] }
    else s

/-- `ScheduleJobs(hosts)` (part_004 lines 83-88): all hosts are pushed
into the job queue in the given order and the queue is closed; the
initial dynamic state of a bulk run. -/
def ScheduleJobs (hosts : List String) : PoolState :=
  { pending := hosts, inFlight := [], emitted := [] }

/-- Run the bulk system under a scheduler-chosen interleaving. -/
def run (wc : Nat) (exec : Executor) : PoolState → List Action → PoolState
  | s, [] => s
  | s, a :: as => run wc exec (step wc exec s a) as

/-- The job queue is closed and drained and every worker has finished its
last job: all workers exit, the wait group reaches zero and the result
queue is closed. -/
def completed (s : PoolState) : Prop := s.pending = [] ∧ s.inFlight = []

instance (s : PoolState) : Decidable (completed s) := by
  unfold completed; infer_instance

/-- `WaitAndReturnResults` (part_004 lines 109-116): drains the result
queue in FIFO order into a slice until the queue is closed, so on a
completed run it returns exactly the emission sequence. -/
def WaitAndReturnResults (s : PoolState) : List Result := s.emitted

/-- The multiset of hosts present anywhere in the system: still queued,
in flight, or recorded in an emitted Result. -/
def hostsOf (s : PoolState) : Multiset String :=
  (s.pending : Multiset String) + (s.inFlight : Multiset String) +
    ((s.emitted.map Result.Host : List String) : Multiset String)

/-- Every emitted Result was produced by a worker from its own host:
it equals `mkResult exec` of its `Host` field. -/
def wellFormed (exec : Executor) (s : PoolState) : Prop :=
  ∀ r ∈ s.emitted, mkResult exec r.Host = r

lemma hostsOf_step (wc : Nat) (exec : Executor) (s : PoolState) (a : Action) :
    hostsOf (step wc exec s a) = hostsOf s := by
  cases a with
  | take =>
    rcases hp : s.pending with _ | ⟨h, rest⟩
    · simp [step, hp]
    · by_cases hlen : s.inFlight.length < wc
      · simp only [step, hp, hlen, if_pos, hostsOf]
        simp only [← Multiset.coe_add, ← Multiset.cons_coe, ← Multiset.singleton_add,
          Multiset.coe_singleton, Multiset.coe_nil]
        abel
      · simp [step, hp, hlen]
  | finish h =>
    by_cases hmem : h ∈ s.inFlight
    · simp only [step, hmem, if_pos, hostsOf, List.map_append, List.map_cons, List.map_nil]
      rw [← Multiset.coe_erase]
      have hm : h ∈ (s.inFlight : Multiset String) := Multiset.mem_coe.mpr hmem
      have hres : (mkResult exec h).Host = h := rfl
      simp only [← Multiset.coe_add, ← Multiset.cons_coe, ← Multiset.singleton_add,
        Multiset.coe_singleton, Multiset.coe_nil, hres]
      calc (s.pending : Multiset String) + (s.inFlight : Multiset String).erase h +
            ((s.emitted.map Result.Host : List String) + ({h} + 0))
          = (s.pending : Multiset String) +
              ({h} + (s.inFlight : Multiset String).erase h) +
              ((s.emitted.map Result.Host : List String) : Multiset String) := by abel
        _ = hostsOf s := by
              rw [Multiset.singleton_add, Multiset.cons_erase hm]; rfl
    · simp [step, hmem]

lemma hostsOf_run (wc : Nat) (exec : Executor) (s : PoolState) (as : List Action) :
    hostsOf (run wc exec s as) = hostsOf s := by
  induction as generalizing s with
  | nil => rfl
  | cons a as ih => rw [run, ih, hostsOf_step]

lemma wellFormed_step (wc : Nat) (exec : Executor) (s : PoolState) (a : Action)
    (hwf : wellFormed exec s) : wellFormed exec (step wc exec s a) := by
  cases a with
  | take =>
    rcases hp : s.pending with _ | ⟨h, rest⟩
    · simpa [step, hp] using hwf
    · by_cases hlen : s.inFlight.length < wc
      · intro r hr
        simp only [step, hp, hlen, if_pos] at hr
        exact hwf r hr
      · simpa [step, hp, hlen] using hwf
  | finish h =>
    by_cases hmem : h ∈ s.inFlight
    · intro r hr
      simp only [step, hmem, if_pos, List.mem_append, List.mem_singleton] at hr
      rcases hr with hr | hr
      · exact hwf r hr
      · subst hr; rfl
    · simpa [step, hmem] using hwf

lemma wellFormed_run (wc : Nat) (exec : Executor) (s : PoolState) (as : List Action)
    (hwf : wellFormed exec s) : wellFormed exec (run wc exec s as) := by
  induction as generalizing s with
  | nil => exact hwf
  | cons a as ih => exact ih _ (wellFormed_step wc exec s a hwf)

lemma emitted_hosts_of_completed (wc : Nat) (exec : Executor) (hosts : List String)
    (sched : List Action)
    (hdone : completed (run wc exec (ScheduleJobs hosts) sched)) :
    (((run wc exec (ScheduleJobs hosts) sched).emitted.map Result.Host : List String) :
        Multiset String) = (hosts : Multiset String) := by
  have h1 := hostsOf_run wc exec (ScheduleJobs hosts) sched
  obtain ⟨hp, hf⟩ := hdone
  unfold hostsOf at h1
  rw [hp, hf] at h1
  simpa [ScheduleJobs, hostsOf] using h1

lemma emitted_of_completed (wc : Nat) (exec : Executor) (hosts : List String)
    (sched : List Action)
    (hdone : completed (run wc exec (ScheduleJobs hosts) sched)) :
    (((run wc exec (ScheduleJobs hosts) sched).emitted : List Result) : Multiset Result) =
      Multiset.map (mkResult exec) (hosts : Multiset String) := by
  have hwf : wellFormed exec (run wc exec (ScheduleJobs hosts) sched) :=
    wellFormed_run wc exec _ sched (by intro r hr; simp [ScheduleJobs] at hr)
  have hid : (run wc exec (ScheduleJobs hosts) sched).emitted.map
      (fun r => mkResult exec r.Host) = (run wc exec (ScheduleJobs hosts) sched).emitted :=
    (List.map_congr_left fun r hr => hwf r hr).trans (List.map_id _)
  calc (((run wc exec (ScheduleJobs hosts) sched).emitted : List Result) : Multiset Result)
      = ↑((run wc exec (ScheduleJobs hosts) sched).emitted.map
          (fun r => mkResult exec r.Host)) := by rw [hid]
    _ = ↑(((run wc exec (ScheduleJobs hosts) sched).emitted.map Result.Host).map
          (mkResult exec)) := by rw [List.map_map]; rfl
    _ = Multiset.map (mkResult exec)
          (((run wc exec (ScheduleJobs hosts) sched).emitted.map Result.Host :
            List String) : Multiset String) := (Multiset.map_coe _ _).symm
    _ = Multiset.map (mkResult exec) (hosts : Multiset String) := by
          rw [emitted_hosts_of_completed wc exec hosts sched hdone]

/-- C1: on a pool with any worker count of at least one, for every
scheduler interleaving under which the bulk run of `ScheduleJobs hosts`
completes, `WaitAndReturnResults` returns exactly as many Outcomes as
submitted hosts, and the multiset of their `Host` fields equals the
multiset of submitted hosts. -/
theorem bulk_completeness (wc : Nat) (exec : Executor) (hosts : List String)
    (sched : List Action) (_hwc : 1 ≤ wc)
    (hdone : completed (run wc exec (ScheduleJobs hosts) sched)) :
    (WaitAndReturnResults (run wc exec (ScheduleJobs hosts) sched)).length = hosts.length ∧
    (((WaitAndReturnResults (run wc exec (ScheduleJobs hosts) sched)).map Result.Host :
        List String) : Multiset String) = (hosts : Multiset String) := by
  have hh := emitted_hosts_of_completed wc exec hosts sched hdone
  constructor
  · have := congrArg Multiset.card hh
    simpa [WaitAndReturnResults, Multiset.coe_card] using this
  · exact hh

/-- Witness for C1: two hosts drained by a single worker. -/
theorem bulk_completeness_witness :
    (1 ≤ 1 ∧
      completed (run 1 execConst (ScheduleJobs ["a", "b"])
        [Action.take, Action.finish "a", Action.take, Action.finish "b"])) ∧
    ((WaitAndReturnResults (run 1 execConst (ScheduleJobs ["a", "b"])
        [Action.take, Action.finish "a", Action.take, Action.finish "b"])).length =
      (["a", "b"] : List String).length ∧
    (((WaitAndReturnResults (run 1 execConst (ScheduleJobs ["a", "b"])
        [Action.take, Action.finish "a", Action.take, Action.finish "b"])).map Result.Host :
        List String) : Multiset String) = ((["a", "b"] : List String) : Multiset String)) :=
  ⟨⟨by decide, by decide⟩,
    bulk_completeness 1 execConst ["a", "b"]
      [Action.take, Action.finish "a", Action.take, Action.finish "b"]
      (by decide) (by decide)⟩

/-- C9: two pools running the same deterministic executor over the same
host list produce equal Outcome multisets on every pair of completing
scheduler interleavings, regardless of the two pools' worker counts. -/
theorem bulk_outcomes_deterministic (exec : Executor) (hosts : List String)
    (wc1 wc2 : Nat) (sched1 sched2 : List Action)
    (h1 : completed (run wc1 exec (ScheduleJobs hosts) sched1))
    (h2 : completed (run wc2 exec (ScheduleJobs hosts) sched2)) :
    ((WaitAndReturnResults (run wc1 exec (ScheduleJobs hosts) sched1) : List Result) :
        Multiset Result) =
      ((WaitAndReturnResults (run wc2 exec (ScheduleJobs hosts) sched2) : List Result) :
        Multiset Result) := by
  unfold WaitAndReturnResults
  rw [emitted_of_completed wc1 exec hosts sched1 h1,
    emitted_of_completed wc2 exec hosts sched2 h2]

/-- Witness for C9: worker counts 1 and 2 with different interleavings
yield the same Outcome multiset. -/
theorem bulk_outcomes_deterministic_witness :
    (completed (run 1 execConst (ScheduleJobs ["a", "b"])
        [Action.take, Action.finish "a", Action.take, Action.finish "b"]) ∧
      completed (run 2 execConst (ScheduleJobs ["a", "b"])
        [Action.take, Action.take, Action.finish "b", Action.finish "a"])) ∧
    ((WaitAndReturnResults (run 1 execConst (ScheduleJobs ["a", "b"])
        [Action.take, Action.finish "a", Action.take, Action.finish "b"]) : List Result) :
        Multiset Result) =
      ((WaitAndReturnResults (run 2 execConst (ScheduleJobs ["a", "b"])
        [Action.take, Action.take, Action.finish "b", Action.finish "a"]) : List Result) :
        Multiset Result) :=
  ⟨⟨by decide, by decide⟩,
    bulk_outcomes_deterministic execConst ["a", "b"] 1 2
      [Action.take, Action.finish "a", Action.take, Action.finish "b"]
      [Action.take, Action.take, Action.finish "b", Action.finish "a"]
      (by decide) (by decide)⟩

/-- C8: in a completed bulk batch in which exactly one host's executor
invocation fails and every other host's succeeds, every returned Outcome
for the failing host carries that error in `Err`, every Outcome for any
other host carries nil `Err`, the failing host's Outcome is present, and
no pool-level failure occurs: the run still yields one Outcome per
submitted host. -/
theorem bulk_failure_isolation (wc : Nat) (exec : Executor) (hosts : List String)
    (sched : List Action) (h0 : String) (o : Bytes) (e : String)
    (hfail : exec h0 = (o, some e))
    (hok : ∀ h ∈ hosts, h ≠ h0 → (exec h).2 = none)
    (hdone : completed (run wc exec (ScheduleJobs hosts) sched)) :
    (WaitAndReturnResults (run wc exec (ScheduleJobs hosts) sched)).length = hosts.length ∧
    (∀ r ∈ WaitAndReturnResults (run wc exec (ScheduleJobs hosts) sched),
      (r.Host = h0 → r.Err = some e) ∧ (r.Host ≠ h0 → r.Err = none)) ∧
    (h0 ∈ hosts → ∃ r ∈ WaitAndReturnResults (run wc exec (ScheduleJobs hosts) sched),
      r.Host = h0 ∧ r.Err = some e) := by
  have hm := emitted_of_completed wc exec hosts sched hdone
  have hh := emitted_hosts_of_completed wc exec hosts sched hdone
  refine ⟨?_, ?_, ?_⟩
  · have := congrArg Multiset.card hh
    simpa [WaitAndReturnResults, Multiset.coe_card] using this
  · intro r hr
    have hr2 : r ∈ Multiset.map (mkResult exec) (hosts : Multiset String) := by
      rw [← hm]; exact Multiset.mem_coe.mpr hr
    obtain ⟨h, hhosts, hrfl⟩ := Multiset.mem_map.mp hr2
    have hhost : r.Host = h := by rw [← hrfl]; rfl
    have herr : r.Err = (exec h).2 := by rw [← hrfl]; rfl
    constructor
    · intro hEq
      rw [herr, ← hhost, hEq, hfail]
    · intro hNe
      rw [herr]
      exact hok h (Multiset.mem_coe.mp hhosts) (by rw [← hhost]; exact hNe)
  · intro hmem
    refine ⟨mkResult exec h0, ?_, rfl, ?_⟩
    · have : mkResult exec h0 ∈ Multiset.map (mkResult exec) (hosts : Multiset String) :=
        Multiset.mem_map_of_mem _ (Multiset.mem_coe.mpr hmem)
      rw [← hm] at this
      exact Multiset.mem_coe.mp this
    · show (exec h0).2 = some e
      rw [hfail]

/-- A concrete executor for the C8 witness: host "bad" fails with error
"boom", every other host succeeds with output `[116]`. -/
def execOneFail : Executor :=
  fun h => if h = "bad" then ([], some "boom") else ([116], none)

/-- Witness for C8: hosts "good" and "bad" drained by one worker. -/
theorem bulk_failure_isolation_witness :
    (execOneFail "bad" = ([], some "boom") ∧
      (∀ h ∈ ["good", "bad"], h ≠ "bad" → (execOneFail h).2 = none) ∧
      completed (run 1 execOneFail (ScheduleJobs ["good", "bad"])
        [Action.take, Action.finish "good", Action.take, Action.finish "bad"])) ∧
    ((WaitAndReturnResults (run 1 execOneFail (ScheduleJobs ["good", "bad"])
        [Action.take, Action.finish "good", Action.take, Action.finish "bad"])).length =
      (["good", "bad"] : List String).length ∧
    (∀ r ∈ WaitAndReturnResults (run 1 execOneFail (ScheduleJobs ["good", "bad"])
        [Action.take, Action.finish "good", Action.take, Action.finish "bad"]),
      (r.Host = "bad" → r.Err = some "boom") ∧ (r.Host ≠ "bad" → r.Err = none)) ∧
    ("bad" ∈ ["good", "bad"] →
      ∃ r ∈ WaitAndReturnResults (run 1 execOneFail (ScheduleJobs ["good", "bad"])
        [Action.take, Action.finish "good", Action.take, Action.finish "bad"]),
        r.Host = "bad" ∧ r.Err = some "boom")) :=
  ⟨⟨by decide, by decide, by decide⟩,
    bulk_failure_isolation 1 execOneFail ["good", "bad"]
      [Action.take, Action.finish "good", Action.take, Action.finish "bad"]
      "bad" [] "boom" (by decide) (by decide) (by decide)⟩

/-! ## StreamResults (part_004 lines 119-124) -/

/-- What `StreamResults` did to the caller-supplied sink: the Results it
sent, in order, and whether it ever closed the sink channel. -/
structure StreamState where
  forwarded : List Result
  sinkClosed : Bool
deriving DecidableEq, Repr

/-- Shallow embedding of `StreamResults` (part_004 lines 119-124): the
loop `for res := range wp.results \x7b receiver <- res \x7d` sends every
Result drained from the result queue to the receiver in order, and the
function returns when the result queue closes — without ever calling
`close(receiver)`: no close of the sink appears in the source. -/
def StreamResults (s : PoolState) : StreamState :=
  { forwarded := s.emitted.foldl (fun acc r => acc ++ [r]) [],
    sinkClosed := false }

lemma foldl_push_eq (l acc : List Result) :
    l.foldl (fun a r => a ++ [r]) acc = acc ++ l := by
  induction l generalizing acc with
  | nil => simp
  | cons x xs ih => simp [List.foldl_cons, ih]

/-- A completed pool state with a single emitted Outcome for host "a". -/
def oneOutcomeState : PoolState :=
  { pending := [], inFlight := [],
    emitted := [{ Host := "a", Output := [], Err := none }] }

/-- C4 (code bug): `StreamResults` forwards every Outcome from the result
queue to the sink in order, but for every pool state — the concrete
single-Outcome run included — it returns with the sink not closed,
contradicting the specified closing of the sink once the result queue is
closed and drained (the in-repo caller ranges over the sink and relies on
that close to terminate). -/
theorem streamResults_forwards_but_never_closes :
    (∀ s : PoolState, (StreamResults s).forwarded = s.emitted ∧
      (StreamResults s).sinkClosed = false) ∧
    (StreamResults oneOutcomeState).forwarded =
      [{ Host := "a", Output := [], Err := none }] ∧
    (StreamResults oneOutcomeState).sinkClosed = false := by
  refine ⟨fun s => ⟨?_, rfl⟩, by decide, rfl⟩
  simp [StreamResults, foldl_push_eq]

end RemoteExecutor
